import Mathlib

/-!
Verification development for the hide-distracting-items extension.

We shallowly embed the parts of the TypeScript sources that the checked
properties concern:

* `ConnectionManager` (src/utils/connectionManager.ts): the session-channel
  state machine (connect, disconnect events, backoff reconnection, sendMessage).
* `BackgroundService` (src/background/background.ts, two drafts): the port
  registry and message forwarding of the coordinator.
* `StorageManager` (src/utils/storageManager.ts): domain validation and
  settings persistence.
* `ElementFinder` (ElementFinder.ts draft): structural-path capture and
  element re-resolution over a model of the DOM.

Machine effects (Date.now, chrome APIs, thrown exceptions) are made explicit:
time is a `Nat` parameter, a transport handle is an opaque `Nat`, fallible
host calls take a `Bool` telling whether they succeed, and a function that can
throw returns the thrown/caught information explicitly.
-/

namespace ConnectionManager

/-- The `ConnectionStatus` union type of src/types/types.ts. -/
inductive ConnectionStatus where
  | disconnected
  | connecting
  | connected
deriving DecidableEq, Repr

/-- The mutable fields of the `ConnectionManager` class.  `port` is the opaque
transport handle (`none` models a `null` port), `context` the logical address
passed to the constructor. -/
structure CMState where
  context : String
  port : Option Nat
  status : ConnectionStatus
  reconnectAttempts : Nat
  isReconnecting : Bool
  lastConnectTime : Nat
deriving DecidableEq, Repr

/-- `private readonly maxReconnectAttempts = 3`. -/
def maxReconnectAttempts : Nat := 3

/-- `shouldAttemptReconnection` of connectionManager.ts (lines 204-211). -/
def shouldAttemptReconnection (st : CMState) : Bool :=
  st.context != "background" &&
  st.reconnectAttempts < maxReconnectAttempts &&
  st.status == .disconnected &&
  !st.isReconnecting

/-- `disconnectExisting`: closes the port if one is open (the `port.disconnect()`
call itself cannot change our own state beyond nulling the port and marking
`disconnected`; a throwing `disconnect()` is caught and ignored). -/
def disconnectExisting (st : CMState) : CMState :=
  match st.port with
  | some _ => { st with port := none, status := .disconnected }
  | none => st

/-- `connect()` (lines 58-82).  `now` models `Date.now()`, `newPort` the fresh
handle produced by `chrome.runtime.connect`, and `ok` whether that call
succeeds (when it throws, `handleConnectionError` runs and the error is
re-thrown).  Returns the new state and whether the call threw. -/
def connect (st : CMState) (now : Nat) (newPort : Nat) (ok : Bool) : CMState × Bool :=
  if st.status == .connected && st.port.isSome then
    (st, false)
  else
    let st1 := disconnectExisting { st with status := .connecting }
    if ok then
      ({ st1 with
          port := some newPort
          lastConnectTime := now
          status := .connected
          reconnectAttempts := 0
          isReconnecting := false }, false)
    else
      ({ st1 with status := .disconnected }, true)

/-- `handleDisconnection` (lines 84-115).  `extInvalidated` models
`isExtensionContextInvalidated(error)`.  The second component is `true`
exactly when the code enters the `reconnectWithBackoff` branch (a backoff
reconnection attempt is scheduled). -/
def handleDisconnection (st : CMState) (now : Nat) (extInvalidated : Bool) :
    CMState × Bool :=
  if st.isReconnecting then
    (st, false)
  else
    let wasConnected := st.status == .connected
    let st1 := { st with status := .disconnected, port := none }
    if extInvalidated then
      (st1, false)
    else if wasConnected && shouldAttemptReconnection st1 &&
        decide (1000 ≤ now - st.lastConnectTime) then
      ({ st1 with isReconnecting := true }, true)
    else
      (st1, false)

/-- The listener installed by `createDisconnectListener` (lines 26-38): a drop
arriving while `connected` and within 1000 ms of the last successful connect
is ignored outright; otherwise `handleDisconnection` runs. -/
def onDisconnectEvent (st : CMState) (now : Nat) (extInvalidated : Bool) :
    CMState × Bool :=
  if st.status == .connected && decide (now - st.lastConnectTime < 1000) then
    (st, false)
  else
    handleDisconnection st now extInvalidated

/-- The wire envelope stamped by `sendMessage` (`{...messageData, source,
target, timestamp}`); the type-specific payload is abstracted to its tag. -/
structure Envelope where
  type : String
  source : String
  target : String
  timestamp : Nat
deriving DecidableEq, Repr

/-- `sendMessage` (lines 121-143).  `postOk` models whether
`port.postMessage` succeeds and `connErr` whether a thrown error satisfies
`isConnectionError`.  Returns (state, envelope actually posted, threw). -/
def sendMessage (st : CMState) (target : String) (msgType : String) (now : Nat)
    (postOk : Bool) (connErr : Bool) : CMState × Option Envelope × Bool :=
  if st.port.isNone || st.status != .connected then
    (st, none, false)
  else
    let message : Envelope :=
      { type := msgType, source := st.context, target := target, timestamp := now }
    if postOk then
      (st, some message, false)
    else
      if connErr then
        ((handleDisconnection st now false).1, none, true)
      else
        (st, none, true)

/-- `const baseDelay = 1000` in `reconnectWithBackoff`. -/
def baseDelay : Nat := 1000

/-- `const maxDelay = 5000` in `reconnectWithBackoff`. -/
def maxDelay : Nat := 5000

/-- One run of `reconnectWithBackoff` (lines 161-189), with no interleaved
events during the `setTimeout` wait (the state at the await boundary is the
one computed before it).  Returns the delay waited (`none` when the attempt
cap was already reached and the run gave up) and the resulting state.  A
throwing inner `connect` is caught by the surrounding `catch`
(`handleConnectionError`), which the `connect` model already applied. -/
def reconnectWithBackoff (st : CMState) (now : Nat) (newPort : Nat) (ok : Bool) :
    Option Nat × CMState :=
  if maxReconnectAttempts ≤ st.reconnectAttempts then
    (none, st)
  else
    let delay := min (baseDelay * 2 ^ st.reconnectAttempts) maxDelay
    let st1 := { st with reconnectAttempts := st.reconnectAttempts + 1 }
    if st1.status == .connected || !st1.isReconnecting then
      (some delay, st1)
    else
      (some delay, (connect st1 (now + delay) newPort ok).1)

end ConnectionManager

namespace BackgroundService

open ConnectionManager (Envelope)

/-- The `setInterval` body installed by `BackgroundService.setupConnection`
(background.ts lines 37-42): every 5 seconds, if the manager's status is not
`connected`, it calls `connect()` again.  Returns whether the tick calls
`connect`. -/
def setupConnectionTick (status : ConnectionManager.ConnectionStatus) : Bool :=
  status != .connected

/-- The coordinator's registry plus the set of live transports.  `connections`
models the string-keyed port map (`ports` in the first draft, `connections` in
the singleton draft); `connected` holds the handles of ports that have not
been disconnected. -/
structure PortState where
  connections : List (String × Nat)
  connected : List Nat
deriving DecidableEq, Repr

/-- Lookup in the string-keyed port map (`ports.get(name)` /
`connections[name]`). -/
def lookupConn (l : List (String × Nat)) (name : String) : Option Nat :=
  match l.find? (fun p => p.1 == name) with
  | some p => some p.2
  | none => none

/-- Map assignment (`ports.set(name, port)` / `connections[name] = port`):
the new binding replaces any previous binding of the same key. -/
def setConn (l : List (String × Nat)) (name : String) (pid : Nat) :
    List (String × Nat) :=
  (name, pid) :: l.filter (fun p => p.1 != name)

/-- The `onConnect` handler of `setupChromeListeners` (first draft,
background.ts lines 85-109): `this.ports.set(port.name, port)` — the new port
is stored without disconnecting any previously registered port of the same
name.  The freshly connected port is live. -/
def onConnectRegister (st : PortState) (name : String) (pid : Nat) : PortState :=
  { st with
      connections := setConn st.connections name pid
      connected := pid :: st.connected }

/-- `handlePortConnection` of the singleton draft (background.ts lines
280-316): an existing connection under the same name is disconnected first
(`this.connections[port.name].disconnect()`), then the new port is stored.
Calling `disconnect()` on our own end does not fire our own `onDisconnect`
listener, so the registry entry just written is not deleted. -/
def handlePortConnection (st : PortState) (name : String) (pid : Nat) : PortState :=
  let st1 :=
    match lookupConn st.connections name with
    | some oldPid => { st with connected := st.connected.erase oldPid }
    | none => st
  { st1 with
      connections := setConn st1.connections name pid
      connected := pid :: st1.connected }

/-- The forwarding branch of the `onMessage` listener in
`setupChromeListeners` (first draft, background.ts lines 92-103): a message
whose target is `background` is handled locally, any other message is posted
verbatim to the port registered under `message.target`, if any.  Returns the
list of (port, envelope) deliveries performed. -/
def forwardToTarget (connections : List (String × Nat)) (message : Envelope) :
    List (Nat × Envelope) :=
  if message.target == "background" then
    []
  else
    match lookupConn connections message.target with
    | some pid => [(pid, message)]
    | none => []

/-- `forwardMessage` of the singleton draft (background.ts lines 254-266):
the message is posted to every registered connection whose name differs from
the source port's name, regardless of `message.target`. -/
def forwardMessage (connections : List (String × Nat)) (sourceName : String)
    (message : Envelope) : List (Nat × Envelope) :=
  (connections.filter (fun p => p.1 != sourceName)).map (fun p => (p.2, message))

end BackgroundService

namespace StorageManager

/-- The `ElementIdentifier` interface of src/types/types.ts as stored in
settings: `domPath` is the raw selector string.  The optional fields play no
role in storage validation and are omitted here. -/
structure ElementIdentifier where
  domPath : String
  tagName : String
  classNames : List String
deriving DecidableEq, Repr

/-- The `DomainSettings` interface of src/types/types.ts. -/
structure DomainSettings where
  hiddenElements : List ElementIdentifier
  enabled : Bool
deriving DecidableEq, Repr

/-- `DEFAULT_SETTINGS` of storageManager.ts. -/
def DEFAULT_SETTINGS : DomainSettings := { hiddenElements := [], enabled := true }

/-- The character class `[a-zA-Z0-9]` of the domain regex. -/
def isAlnumChar (c : Char) : Bool :=
  ('a' ≤ c && c ≤ 'z') || ('A' ≤ c && c ≤ 'Z') || ('0' ≤ c && c ≤ '9')

/-- The separator characters `-`, `_`, `.` of the domain regex's middle
class. -/
def isSeparatorChar (c : Char) : Bool :=
  c == '-' || c == '_' || c == '.'

/-- The character class `[a-zA-Z0-9-_.]` of the domain regex. -/
def isDomainChar (c : Char) : Bool :=
  isAlnumChar c || isSeparatorChar c

/-- Matching of `[a-zA-Z0-9-_.]*[a-zA-Z0-9]$` against the remaining
characters: nonempty, last character alphanumeric, all others in the middle
class. -/
def patternTail : List Char → Bool
  | [] => false
  | [c] => isAlnumChar c
  | c :: c2 :: rest => isDomainChar c && patternTail (c2 :: rest)

/-- Matching of the whole regex
`^[a-zA-Z0-9][a-zA-Z0-9-_.]*[a-zA-Z0-9]$` of `isValidDomain`. -/
def matchesDomainPattern (d : String) : Bool :=
  match d.toList with
  | [] => false
  | c :: rest => isAlnumChar c && patternTail rest

/-- `isValidDomain` (storageManager.ts lines 173-181): non-null, nonempty,
at most 255 characters, and matching the regex. -/
def isValidDomain (domain : String) : Bool :=
  decide (0 < domain.length) && decide (domain.length ≤ 255) &&
  matchesDomainPattern domain

/-- `validateSettings` (lines 183-212), specialized to well-typed settings:
`hiddenElements` is always an array and `enabled` always a boolean in the
typed embedding, so the only remaining checks are that every stored element
has a truthy (nonempty) `domPath` and `tagName`.  We return `isValid`; the
accumulated error strings do not affect control flow. -/
def validateSettings (settings : DomainSettings) : Bool :=
  settings.hiddenElements.all (fun e => e.domPath != "" && e.tagName != "")

/-- The `chrome.storage.sync` key-value store, restricted to the
domain-settings entries this module reads and writes. -/
abbrev Storage := List (String × DomainSettings)

/-- `chrome.storage.sync.get(key)` on the model store. -/
def storageGet (store : Storage) (key : String) : Option DomainSettings :=
  match store.find? (fun p => p.1 == key) with
  | some p => some p.2
  | none => none

/-- The effect on the store of an accepted `chrome.storage.sync.set({[key]:
value})`.  The call itself can also reject (sync quota, runtime errors);
following the file's convention for fallible host calls, the caller passes a
`Bool` telling whether the call was accepted, and applies this function only
then (a rejected set writes nothing). -/
def storageSet (store : Storage) (key : String) (value : DomainSettings) : Storage :=
  (key, value) :: store.filter (fun p => p.1 != key)

/-- `getDomainSettings` (lines 24-48): invalid domain, missing entry, or an
entry failing validation all yield `DEFAULT_SETTINGS`; a throwing
`chrome.storage.sync.get` (`getOk = false`) is caught and likewise yields
`DEFAULT_SETTINGS`. -/
def getDomainSettings (store : Storage) (domain : String) (getOk : Bool) :
    DomainSettings :=
  if !isValidDomain domain then
    DEFAULT_SETTINGS
  else if !getOk then
    DEFAULT_SETTINGS
  else
    match storageGet store domain with
    | none => DEFAULT_SETTINGS
    | some settings =>
        if !validateSettings settings then DEFAULT_SETTINGS else settings

/-- `areSettingsEqual` (lines 214-226): `enabled`, element count, and per
index `domPath`, `tagName` and the JSON-stringified `classNames` (equal
stringifications of string arrays coincide with equal lists). -/
def areSettingsEqual (a b : DomainSettings) : Bool :=
  a.enabled == b.enabled &&
  a.hiddenElements.length == b.hiddenElements.length &&
  (a.hiddenElements.zip b.hiddenElements).all
    (fun p => p.1.domPath == p.2.domPath && p.1.tagName == p.2.tagName &&
      p.1.classNames == p.2.classNames)

/-- `saveDomainSettings` (lines 53-98): reject on invalid domain or invalid
settings without touching storage; otherwise write, read back, and verify,
with the whole write/verify sequence under a try/catch that converts any
throw into a failure result.  `setOk` models whether `chrome.storage.sync.set`
is accepted (it can reject on sync quotas or runtime errors even for valid
inputs; a rejected set writes nothing) and `getOk` whether the read-back
`chrome.storage.sync.get` succeeds (on its failure `getDomainSettings`
returns the defaults, so verification compares against `DEFAULT_SETTINGS`
and, when that fails, the failure result is returned with the written entry
retained).  Returns the resulting store and the `success` field of the
`StorageOperation`. -/
def saveDomainSettings (store : Storage) (domain : String)
    (settings : DomainSettings) (setOk getOk : Bool) : Storage × Bool :=
  if !isValidDomain domain then
    (store, false)
  else if !validateSettings settings then
    (store, false)
  else if !setOk then
    (store, false)
  else
    let store1 := storageSet store domain settings
    let saved := getDomainSettings store1 domain getOk
    if areSettingsEqual settings saved then (store1, true) else (store1, false)

/-- Modelled from the claim's words only (for comparison with
`isValidDomain`): the hostname-shape validation as the specification states
it — non-empty, at most 255 characters, every character
alphanumeric/hyphen/underscore/dot, and not starting or ending with a
separator. -/
def claimHostnameShape (d : String) : Bool :=
  match d.toList with
  | [] => false
  | c :: rest =>
      decide (d.length ≤ 255) && (c :: rest).all isDomainChar &&
      !isSeparatorChar c && !isSeparatorChar (rest.getLastD c)

end StorageManager

namespace ElementFinder

/-- A DOM element: tag name (stored lowercase, as captured by
`tagName.toLowerCase()` / `nodeName.toLowerCase()`), optional nonempty `id`
attribute (an absent or empty id — falsy in the source — is `none`), class
list, text content snapshot, and child elements in document order.  The root
of a document model is the `document.body` element. -/
inductive Elem where
  | mk (tag : String) (id : Option String) (classes : List String)
      (text : String) (children : List Elem)

def Elem.tag : Elem → String
  | .mk t _ _ _ _ => t

def Elem.id : Elem → Option String
  | .mk _ i _ _ _ => i

def Elem.classes : Elem → List String
  | .mk _ _ cs _ _ => cs

def Elem.text : Elem → String
  | .mk _ _ _ x _ => x

def Elem.children : Elem → List Elem
  | .mk _ _ _ _ ch => ch

/-- A node of the document is addressed by its path of child indices from
`document.body` (the root); `[]` is the body itself. -/
def getNode : List Nat → Elem → Option Elem
  | [], e => some e
  | i :: rest, e =>
    match e.children[i]? with
    | some c => getNode rest c
    | none => none

mutual

/-- All positions of the subtree rooted at position `base`, in document
(pre-order) order — the order in which `document.querySelector` and
`document.getElementsByTagName` enumerate elements. -/
def preorder (base : List Nat) : Elem → List (List Nat)
  | .mk _ _ _ _ ch => base :: preorderChildren base 0 ch

/-- Positions of the elements of a child list starting at sibling index `i`,
in document order. -/
def preorderChildren (base : List Nat) (i : Nat) : List Elem → List (List Nat)
  | [] => []
  | c :: cs => preorder (base ++ [i]) c ++ preorderChildren base (i + 1) cs

end

end ElementFinder

namespace ElementFinder

/-- One fragment of a structural path, as built by `getDomPath` (lines
35-57): `tag#id` when the element has an id, otherwise `tag:nth-child(k)`
when the element has more than one sibling, otherwise plain `tag`. -/
structure Frag where
  tag : String
  id : Option String
  nth : Option Nat
deriving DecidableEq, Repr

/-- The selector fragment contributed by the `i`-th child of `parent` in one
iteration of `getDomPath`'s loop: the id wins if present (truthy); otherwise
the 1-based sibling index is appended when the element has more than one
sibling. -/
def fragFor (parent : Elem) (i : Nat) : Option Frag :=
  match parent.children[i]? with
  | none => none
  | some e =>
    match e.id with
    | some eid => some { tag := e.tag, id := some eid, nth := none }
    | none =>
        some { tag := e.tag, id := none,
               nth := if 1 < parent.children.length then some (i + 1) else none }

/-- The loop of `getDomPath` walking from the node up to (excluding) the
body, one fragment per level.  The argument is the node's position REVERSED
(leaf index first — exactly the order the loop visits levels); the result is
the leaf-first fragment list. -/
def getDomPathRevAux (root : Elem) : List Nat → Option (List Frag)
  | [] => some []
  | i :: rup =>
    match getNode rup.reverse root with
    | none => none
    | some parent =>
      match fragFor parent i with
      | none => none
      | some f =>
        match getDomPathRevAux root rup with
        | none => none
        | some rest => some (f :: rest)

/-- `getDomPath` (lines 35-57): the root-to-leaf fragment sequence for the
node at position `p` (the source joins it with `" > "`; we keep it
structured). -/
def getDomPath (root : Elem) (p : List Nat) : Option (List Frag) :=
  (getDomPathRevAux root p.reverse).map List.reverse

/-- A stored `domPath` selector string: either it parses to a child-combinator
chain of fragments, or it is unparseable (then `document.querySelector` throws
on it).  Paths produced by `getDomPath` on the model are always valid: the
model treats tag names and ids as CSS-safe tokens. -/
inductive DomPath where
  | valid (frags : List Frag)
  | invalid
deriving DecidableEq, Repr

/-- Whether the element at position `p` matches one selector fragment
(`tag`, optional `#id`, optional `:nth-child(k)` — 1-based position among the
parent's children; the root has no parent, so `:nth-child` cannot match it
in the model). -/
def matchesFrag (root : Elem) (p : List Nat) (f : Frag) : Bool :=
  match getNode p root with
  | none => false
  | some e =>
    e.tag == f.tag &&
    (match f.id with
     | none => true
     | some fid => e.id == some fid) &&
    (match f.nth with
     | none => true
     | some k =>
       match p.getLast? with
       | none => false
       | some i => i + 1 == k)

/-- Matching of a leaf-first fragment chain against the element at `p` with
the CSS child combinator `>`: each further fragment must match the successive
parent. -/
def matchesPathRev (root : Elem) : List Frag → List Nat → Bool
  | [], _ => true
  | f :: rest, p =>
    matchesFrag root p f &&
    (rest.isEmpty || (!p.isEmpty && matchesPathRev root rest p.dropLast))

/-- Whether the element at `p` matches the (root-first) fragment chain; an
empty chain matches nothing. -/
def matchesPath (root : Elem) (frags : List Frag) (p : List Nat) : Bool :=
  !frags.isEmpty && matchesPathRev root frags.reverse p

/-- `document.querySelector` on a parsed chain: the first element in document
(pre-order) order matching it. -/
def querySelectorFrags (root : Elem) (frags : List Frag) : Option (List Nat) :=
  (preorder [] root).find? (matchesPath root frags)

/-- `document.querySelector(identifier.domPath)`: throws (`.error`) on an
unparseable selector (including the empty string), otherwise returns the
first match in document order, if any. -/
def querySelector (root : Elem) : DomPath → Except Unit (Option (List Nat))
  | .invalid => .error ()
  | .valid [] => .error ()
  | .valid (f :: fs) => .ok (querySelectorFrags root (f :: fs))

/-- The `ElementIdentifier` record produced by `getElementIdentifier`
(src/types/types.ts, with the structured `DomPath` in place of the raw
selector string). -/
inductive ElementIdentifier where
  | mk (domPath : DomPath) (tagName : String) (classNames : List String)
      (id : Option String) (textContent : Option String)
      (parentPath : Option DomPath) (children : Option (List ElementIdentifier))

def ElementIdentifier.domPath : ElementIdentifier → DomPath
  | .mk d _ _ _ _ _ _ => d

def ElementIdentifier.tagName : ElementIdentifier → String
  | .mk _ t _ _ _ _ _ => t

def ElementIdentifier.classNames : ElementIdentifier → List String
  | .mk _ _ cs _ _ _ _ => cs

def ElementIdentifier.id : ElementIdentifier → Option String
  | .mk _ _ _ i _ _ _ => i

def ElementIdentifier.textContent : ElementIdentifier → Option String
  | .mk _ _ _ _ x _ _ => x

def ElementIdentifier.parentPath : ElementIdentifier → Option DomPath
  | .mk _ _ _ _ _ pp _ => pp

def ElementIdentifier.children : ElementIdentifier → Option (List ElementIdentifier)
  | .mk _ _ _ _ _ _ ch => ch

/-- The identifier fields captured by `getElementIdentifier` (lines 4-18)
apart from `children`: domPath, lowercase tag, class list, id (falsy —
absent — becomes `undefined`), trimmed text content (empty becomes
`undefined`), and the parent's path when a parent element exists (the model
roots documents at `body`, so the body's own `parentPath` is `none`). -/
def identifierBase (root : Elem) (p : List Nat)
    (children : Option (List ElementIdentifier)) : Option ElementIdentifier :=
  match getNode p root with
  | none => none
  | some e =>
    match getDomPath root p with
    | none => none
    | some frags =>
      let parentPath : Option DomPath :=
        if p.isEmpty then none
        else
          match getDomPath root p.dropLast with
          | some pf => some (.valid pf)
          | none => none
      some (.mk (.valid frags) e.tag e.classes e.id
        (if e.text.trim == "" then none else some e.text.trim) parentPath children)

/-- `Array.from(...).map f` over a child list, with positional-lookup failure
propagated (the source `map` itself never fails). -/
def mapMOption (f : α → Option β) : List α → Option (List β)
  | [] => some []
  | a :: l =>
    match f a, mapMOption f l with
    | some b, some bs => some (b :: bs)
    | _, _ => none

/-- `getElementIdentifier(child, false)`: the recursive call of lines 22-25 —
no `children` field is ever produced. -/
def getElementIdentifierNoChildren (root : Elem) (p : List Nat) :
    Option ElementIdentifier :=
  identifierBase root p none

/-- `getElementIdentifier` (lines 4-33): when `includeChildren` is set, each
immediate child is captured with `includeChildren = false`, and the list is
attached as `children` only when it is nonempty. -/
def getElementIdentifier (root : Elem) (p : List Nat) (includeChildren : Bool) :
    Option ElementIdentifier :=
  if includeChildren then
    match getNode p root with
    | none => none
    | some e =>
      match mapMOption (fun i => getElementIdentifierNoChildren root (p ++ [i]))
          (List.range e.children.length) with
      | none => none
      | some children =>
        identifierBase root p (if children.isEmpty then none else some children)
  else
    identifierBase root p none

/-- The acceptance test of the fallback loop in `findElementByIdentifier`
(lines 71-78): every recorded class is in the element's class list, and the
recorded id, when set, equals the element's id. -/
def fallbackMatches (identifier : ElementIdentifier) (e : Elem) : Bool :=
  identifier.classNames.all (fun cls => e.classes.contains cls) &&
  (identifier.id.isNone || e.id == identifier.id)

/-- Whether the element at `p` has the record's tag (the
`getElementsByTagName` filter; tags are stored lowercase on both sides). -/
def hasTag (root : Elem) (tagName : String) (p : List Nat) : Bool :=
  match getNode p root with
  | some e => e.tag == tagName
  | none => false

/-- `findElementByIdentifier` (lines 59-81), identical in behavior to
`ContentScript.findElement` (contentScript.ts lines 291-314): try the
`domPath` selector (a thrown selector error is caught); when it yields no
element, scan the elements with the record's tag in document order and return
the first acceptable one, else null. -/
def findElementByIdentifier (root : Elem) (identifier : ElementIdentifier) :
    Option (List Nat) :=
  match querySelector root identifier.domPath with
  | .ok (some p) => some p
  | .ok none =>
    ((preorder [] root).filter (hasTag root identifier.tagName)).find?
      (fun p =>
        match getNode p root with
        | some e => fallbackMatches identifier e
        | none => false)
  | .error _ =>
    ((preorder [] root).filter (hasTag root identifier.tagName)).find?
      (fun p =>
        match getNode p root with
        | some e => fallbackMatches identifier e
        | none => false)

/-- Modelled from the claim's words only (for comparison with the fallback
scan of `findElementByIdentifier`): the element at `p` has the record's
tagName, its class list contains every recorded class, and its id equals the
recorded id (or the record's id is unset). -/
def qualifies (root : Elem) (identifier : ElementIdentifier) (p : List Nat) : Bool :=
  match getNode p root with
  | some e =>
    e.tag == identifier.tagName &&
    identifier.classNames.all (fun cls => e.classes.contains cls) &&
    (identifier.id.isNone || e.id == identifier.id)
  | none => false

/-- Modelled from the claim's words only: the first qualifying element in
document scan order, if any. -/
def claimFallbackResult (root : Elem) (identifier : ElementIdentifier) :
    Option (List Nat) :=
  (preorder [] root).find? (qualifies root identifier)

/-- Whether a `querySelector` outcome found an element. -/
def qsFoundSome : Except Unit (Option (List Nat)) → Bool
  | .ok (some _) => true
  | _ => false

end ElementFinder

namespace ElementFinder

/-- Concrete document for the round-trip counterexample:
`body > div > (div > (div, div), div)`.  The captured node is the second
child (position `[0, 1]`) of the only child of the body; its structural path
is `div > div:nth-child(2)`, which the second grandchild at `[0, 0, 1]` also
matches, earlier in document order. -/
def roundTripDoc : Elem :=
  .mk "body" none [] ""
    [.mk "div" none [] ""
      [.mk "div" none [] "" [.mk "div" none [] "" [], .mk "div" none [] "" []],
       .mk "div" none [] "" []]]

/-- Concrete document for the round-trip witness: a body with a single child
carrying an id, whose structural path `div#main` matches only itself. -/
def uniqueDoc : Elem :=
  .mk "body" none [] "" [.mk "div" (some "main") [] "" []]

/-- Concrete document for the fallback witness: a body with one `div` of
class `ad`. -/
def fallbackDoc : Elem :=
  .mk "body" none [] "" [.mk "div" none ["ad"] "" []]

/-- A stored record with an unparseable `domPath`, sending resolution to the
fallback scan. -/
def fallbackIdr : ElementIdentifier :=
  .mk .invalid "div" ["ad"] none none none none

/-- Concrete document for the one-level-children witness: a body with one
`div` containing one `span`. -/
def childrenDoc : Elem :=
  .mk "body" none [] "" [.mk "div" none [] "" [.mk "span" none ["x"] "" []]]

end ElementFinder

namespace ConnectionManager

/-- C8: a transport drop event arriving while the channel is `connected` and
less than 1000 ms after the last successful connect is ignored: the state is
unchanged (no transition to `disconnected`) and no reconnection is
scheduled. -/
theorem claim_c8 (st : CMState) (now : Nat) (err : Bool)
    (hconn : st.status = .connected) (hgrace : now - st.lastConnectTime < 1000) :
    onDisconnectEvent st now err = (st, false) := by
  simp [onDisconnectEvent, hconn, hgrace]

theorem claim_c8_witness :
    onDisconnectEvent ⟨"sidepanel", some 1, .connected, 0, false, 100⟩ 500 false
      = (⟨"sidepanel", some 1, .connected, 0, false, 100⟩, false) :=
  claim_c8 _ _ _ rfl (by decide)

/-- C10: `sendMessage` while the port is null or the status is not
`connected` resolves without sending anything, without changing state and
without throwing. -/
theorem claim_c10 (st : CMState) (target msgType : String) (now : Nat)
    (postOk connErr : Bool) (h : st.status ≠ .connected ∨ st.port = none) :
    sendMessage st target msgType now postOk connErr = (st, none, false) := by
  have hcond : (st.port.isNone || st.status != ConnectionStatus.connected) = true := by
    rcases h with h | h
    · simp [bne_iff_ne, h]
    · simp [h]
  simp [sendMessage, hcond]

theorem claim_c10_witness :
    sendMessage ⟨"sidepanel", none, .disconnected, 0, false, 0⟩ "background" "PING" 5 true true
      = (⟨"sidepanel", none, .disconnected, 0, false, 0⟩, none, false) :=
  claim_c10 _ _ _ _ _ _ (Or.inl (by decide))

/-- C5 (amended): the drop handler never schedules a backoff reconnection
when the channel's context is `background` (the Coordinator). -/
theorem claim_c5_amended (st : CMState) (now : Nat) (err : Bool)
    (h : st.context = "background") :
    (onDisconnectEvent st now err).2 = false := by
  cases hrec : st.isReconnecting <;> cases err <;>
    simp [onDisconnectEvent, handleDisconnection, shouldAttemptReconnection, h, hrec] <;>
    split <;> simp

theorem claim_c5_witness :
    (onDisconnectEvent ⟨"background", some 1, .connected, 0, false, 0⟩ 2000 false).2 = false :=
  claim_c5_amended _ _ _ rfl

/-- C5 counterexample: after a drop of the background channel (no backoff is
scheduled and the status becomes `disconnected`), the Coordinator's own
5-second `setInterval` health check observes a non-connected status and calls
`connect()` — i.e. the Coordinator context does attempt to reconnect after a
drop, contradicting the claim that it never does. -/
theorem claim_c5_counterexample :
    (handleDisconnection ⟨"background", some 1, .connected, 0, false, 0⟩ 2000 false).1.status
        = .disconnected
    ∧ (handleDisconnection ⟨"background", some 1, .connected, 0, false, 0⟩ 2000 false).2 = false
    ∧ BackgroundService.setupConnectionTick
        (handleDisconnection ⟨"background", some 1, .connected, 0, false, 0⟩ 2000 false).1.status
        = true := by
  decide

/-- C6: the backoff delay is `min(baseDelay * 2 ^ attempt, maxDelay)`; at the
cap of 3 attempts `reconnectWithBackoff` gives up without any further state
change, a drop arriving at the cap schedules nothing, and a successful
explicit `connect()` from a non-connected state ends `connected` with the
attempt counter reset to 0. -/
theorem claim_c6 (st : CMState) (now newPort : Nat) (ok : Bool) :
    (st.reconnectAttempts < maxReconnectAttempts →
      (reconnectWithBackoff st now newPort ok).1
        = some (min (baseDelay * 2 ^ st.reconnectAttempts) maxDelay))
    ∧ (maxReconnectAttempts ≤ st.reconnectAttempts →
        reconnectWithBackoff st now newPort ok = (none, st)
        ∧ (handleDisconnection st now false).2 = false)
    ∧ (¬ (st.status = .connected ∧ st.port.isSome = true) → ok = true →
        (connect st now newPort ok).1.reconnectAttempts = 0
        ∧ (connect st now newPort ok).1.status = .connected) := by
  refine ⟨?_, ?_, ?_⟩
  · intro hlt
    simp only [reconnectWithBackoff]
    rw [if_neg (by omega)]
    split <;> rfl
  · intro hge
    refine ⟨by simp only [reconnectWithBackoff]; rw [if_pos hge], ?_⟩
    cases hrec : st.isReconnecting <;>
      simp [handleDisconnection, hrec, shouldAttemptReconnection, Nat.not_lt.mpr hge]
  · intro hns hok
    subst hok
    have hcond : (st.status == ConnectionStatus.connected && st.port.isSome) = false := by
      rcases Decidable.em (st.status = .connected) with hc | hc
      · have hp : st.port.isSome = false := by
          rcases hps : st.port.isSome with _ | _
          · rfl
          · exact absurd ⟨hc, hps⟩ hns
        simp [hp]
      · simp [hc]
    simp only [connect, hcond, Bool.false_eq_true, if_false]
    cases hp : st.port <;> simp [disconnectExisting, hp]

theorem claim_c6_witness :
    (reconnectWithBackoff ⟨"sidepanel", none, .disconnected, 1, true, 0⟩ 100 7 true).1 = some 2000
    ∧ (connect ⟨"sidepanel", none, .disconnected, 1, true, 0⟩ 100 7 true).1.reconnectAttempts = 0 := by
  refine ⟨?_, ?_⟩
  · have h := (claim_c6 ⟨"sidepanel", none, .disconnected, 1, true, 0⟩ 100 7 true).1 (by decide)
    simpa using h
  · exact ((claim_c6 ⟨"sidepanel", none, .disconnected, 1, true, 0⟩ 100 7 true).2.2 (by decide) rfl).1

end ConnectionManager

namespace BackgroundService

open ConnectionManager (Envelope)

theorem lookupConn_setConn (l : List (String × Nat)) (name : String) (pid : Nat) :
    lookupConn (setConn l name pid) name = some pid := by
  simp [lookupConn, setConn, List.find?]

/-- C3 (amended): `handlePortConnection` (the singleton-coordinator draft)
disconnects the previously registered transport before storing the new one:
afterwards the address maps to the new port, the new port is live, and the
old port is not. -/
theorem claim_c3_amended (st : PortState) (name : String) (oldPid newPid : Nat)
    (hold : lookupConn st.connections name = some oldPid)
    (hnodup : st.connected.Nodup) (hne : oldPid ≠ newPid) :
    lookupConn (handlePortConnection st name newPid).connections name = some newPid
    ∧ oldPid ∉ (handlePortConnection st name newPid).connected
    ∧ newPid ∈ (handlePortConnection st name newPid).connected := by
  simp only [handlePortConnection, hold]
  refine ⟨lookupConn_setConn _ _ _, ?_, List.mem_cons_self _ _⟩
  intro hmem
  rcases List.mem_cons.mp hmem with h | h
  · exact hne h
  · exact ((hnodup.mem_erase_iff).mp h).1 rfl

theorem claim_c3_witness :
    lookupConn (handlePortConnection ⟨[("sidepanel", 1)], [1]⟩ "sidepanel" 2).connections
        "sidepanel" = some 2
    ∧ (1 : Nat) ∉ (handlePortConnection ⟨[("sidepanel", 1)], [1]⟩ "sidepanel" 2).connected
    ∧ (2 : Nat) ∈ (handlePortConnection ⟨[("sidepanel", 1)], [1]⟩ "sidepanel" 2).connected :=
  claim_c3_amended ⟨[("sidepanel", 1)], [1]⟩ "sidepanel" 1 2 (by decide)
    (by decide) (by decide)

/-- C3 counterexample: the `onConnect` handler of `setupChromeListeners`
(first draft) stores a second port under the already-occupied address
`sidepanel` without disconnecting the first: afterwards the registry maps the
address to the new port, but the previous transport is still live — the
previous transport was NOT forcibly disconnected, so two live transports
exist after the registration. -/
theorem claim_c3_counterexample :
    lookupConn (onConnectRegister ⟨[("sidepanel", 1)], [1]⟩ "sidepanel" 2).connections
        "sidepanel" = some 2
    ∧ (1 : Nat) ∈ (onConnectRegister ⟨[("sidepanel", 1)], [1]⟩ "sidepanel" 2).connected
    ∧ (2 : Nat) ∈ (onConnectRegister ⟨[("sidepanel", 1)], [1]⟩ "sidepanel" 2).connected := by
  decide

/-- C4 (amended): the `onMessage` forwarding of `setupChromeListeners` (first
draft) delivers a non-background-targeted envelope verbatim to exactly the
port registered under its target, and drops it (no delivery) when the target
is unregistered. -/
theorem forwardToTarget_eq (conns : List (String × Nat)) (msg : Envelope)
    (hbg : msg.target ≠ "background") :
    forwardToTarget conns msg =
      match lookupConn conns msg.target with
      | some pid => [(pid, msg)]
      | none => [] := by
  simp [forwardToTarget, hbg]

theorem claim_c4_amended (conns : List (String × Nat)) (msg : Envelope) :
    (∀ pid env, (pid, env) ∈ forwardToTarget conns msg →
        env = msg ∧ lookupConn conns msg.target = some pid)
    ∧ (msg.target ≠ "background" →
        ∀ pid, lookupConn conns msg.target = some pid →
          forwardToTarget conns msg = [(pid, msg)])
    ∧ (lookupConn conns msg.target = none → forwardToTarget conns msg = []) := by
  by_cases hbg : msg.target = "background"
  · refine ⟨?_, ?_, ?_⟩ <;> simp [forwardToTarget, hbg]
  · have he := forwardToTarget_eq conns msg hbg
    cases hl : lookupConn conns msg.target with
    | none =>
      rw [hl] at he
      refine ⟨?_, ?_, ?_⟩
      · intro pid env hmem
        rw [he] at hmem
        simp at hmem
      · intro _ pid hpid
        simp at hpid
      · intro _
        simpa using he
    | some pid0 =>
      rw [hl] at he
      refine ⟨?_, ?_, ?_⟩
      · intro pid env hmem
        rw [he] at hmem
        simp only [List.mem_singleton, Prod.mk.injEq] at hmem
        exact ⟨hmem.2, by rw [hmem.1]⟩
      · intro _ pid hpid
        injection hpid with h
        subst h
        simpa using he
      · intro h
        simp at h

theorem claim_c4_witness :
    forwardToTarget [("sidepanel", 1), ("content-2", 2), ("content-3", 3)]
        ⟨"ELEMENT_SELECTED", "content-2", "sidepanel", 0⟩
      = [(1, ⟨"ELEMENT_SELECTED", "content-2", "sidepanel", 0⟩)] :=
  (claim_c4_amended [("sidepanel", 1), ("content-2", 2), ("content-3", 3)]
      ⟨"ELEMENT_SELECTED", "content-2", "sidepanel", 0⟩).2.1
    (by decide) 1 (by decide)

/-- C4 counterexample: `forwardMessage` of the singleton draft broadcasts to
every registered connection other than the source, regardless of the
envelope's target: a message from `content-2` targeted at `sidepanel` is also
delivered to the unrelated registered channel `content-3` (port 3, distinct
from the target's port 1). -/
theorem claim_c4_counterexample :
    lookupConn [("sidepanel", 1), ("content-2", 2), ("content-3", 3)] "sidepanel" = some 1
    ∧ ((3 : Nat), (⟨"ELEMENT_SELECTED", "content-2", "sidepanel", 0⟩ : Envelope)) ∈
        forwardMessage [("sidepanel", 1), ("content-2", 2), ("content-3", 3)] "content-2"
          ⟨"ELEMENT_SELECTED", "content-2", "sidepanel", 0⟩
    ∧ (3 : Nat) ≠ 1 := by
  decide

end BackgroundService

namespace StorageManager

theorem isSeparatorChar_alnum {c : Char} (h : isSeparatorChar c = true) :
    isAlnumChar c = false := by
  simp only [isSeparatorChar, Bool.or_eq_true, beq_iff_eq] at h
  rcases h with (h | h) | h <;> subst h <;> decide

theorem isAlnumChar_eq (c : Char) :
    isAlnumChar c = (isDomainChar c && !isSeparatorChar c) := by
  cases hs : isSeparatorChar c
  · simp [isDomainChar, hs]
  · simp [isDomainChar, hs, isSeparatorChar_alnum hs]

theorem patternTail_eq : ∀ (l : List Char) (c : Char),
    patternTail (c :: l)
      = ((c :: l).all isDomainChar && !isSeparatorChar (l.getLastD c)) := by
  intro l
  induction l with
  | nil =>
    intro c
    simp [patternTail, isAlnumChar_eq, List.getLastD_nil]
  | cons x t ih =>
    intro c
    calc patternTail (c :: x :: t)
        = (isDomainChar c && patternTail (x :: t)) := rfl
      _ = (isDomainChar c
            && ((x :: t).all isDomainChar && !isSeparatorChar (t.getLastD x))) := by
          rw [ih x]
      _ = ((c :: x :: t).all isDomainChar
            && !isSeparatorChar ((x :: t).getLastD c)) := by
          simp only [List.getLastD_cons, List.all_cons, Bool.and_assoc]

/-- The code's `isValidDomain` regex agrees with the hostname shape the
specification describes, strengthened by a minimum length of 2 (the regex
`^[a-zA-Z0-9][a-zA-Z0-9-_.]*[a-zA-Z0-9]$` needs distinct first and last
characters). -/
theorem isValidDomain_eq (d : String) :
    isValidDomain d = (claimHostnameShape d && decide (2 ≤ d.length)) := by
  have hlen : d.length = d.toList.length := rfl
  unfold isValidDomain claimHostnameShape matchesDomainPattern
  cases hd : d.toList with
  | nil =>
    have hn : d.length = 0 := by rw [hlen, hd]; rfl
    simp [hn]
  | cons c rest =>
    cases rest with
    | nil =>
      have hn : d.length = 1 := by rw [hlen, hd]; rfl
      simp [hn, patternTail]
    | cons x t =>
      have hn : d.length = t.length + 1 + 1 := by rw [hlen, hd]; rfl
      have h0 : decide (0 < d.length) = true := by
        rw [hn]; exact decide_eq_true (by omega)
      have h2 : decide (2 ≤ d.length) = true := by
        rw [hn]; exact decide_eq_true (by omega)
      dsimp only
      rw [h0, h2, patternTail_eq t x, isAlnumChar_eq c]
      simp only [List.getLastD_cons, List.all_cons, Bool.and_true, Bool.true_and]
      rw [Bool.eq_iff_iff]
      simp only [Bool.and_eq_true]
      tauto

theorem storageGet_storageSet_self (store : Storage) (k : String) (v : DomainSettings) :
    storageGet (storageSet store k v) k = some v := by
  simp [storageGet, storageSet, List.find?]

theorem areSettingsEqual_refl (s : DomainSettings) : areSettingsEqual s s = true := by
  simp only [areSettingsEqual, beq_self_eq_true, Bool.true_and]
  induction s.hiddenElements with
  | nil => rfl
  | cons e t ih => simpa [List.zip_cons_cons, List.all_cons] using ih

/-- C7 (amended): `saveDomainSettings` fails with storage unchanged whenever
the domain fails the hostname-shape check strengthened to a minimum length of
2 (first and last characters alphanumeric) or the rule set fails the shape
validation — so failure is NOT equivalent to invalid input: with valid inputs
it also fails (storage unchanged) when the underlying `chrome.storage.sync.set`
rejects, and it fails with the written entry retained when the read-back
errors and the settings differ from the defaults.  It succeeds, writing the
entry, when the inputs are valid, the write is accepted and the read-back
succeeds.  The empty domain always fails without altering storage. -/
theorem claim_c7_amended (store : Storage) (domain : String)
    (settings : DomainSettings) (setOk getOk : Bool) :
    (¬(claimHostnameShape domain = true ∧ 2 ≤ domain.length
        ∧ validateSettings settings = true) →
      saveDomainSettings store domain settings setOk getOk = (store, false))
    ∧ (claimHostnameShape domain = true → 2 ≤ domain.length →
        validateSettings settings = true →
        (setOk = false →
          saveDomainSettings store domain settings setOk getOk = (store, false))
        ∧ (setOk = true → getOk = true →
            saveDomainSettings store domain settings setOk getOk
              = (storageSet store domain settings, true))
        ∧ (setOk = true → getOk = false →
            saveDomainSettings store domain settings setOk getOk
              = (storageSet store domain settings,
                  areSettingsEqual settings DEFAULT_SETTINGS)))
    ∧ saveDomainSettings store "" settings setOk getOk = (store, false) := by
  refine ⟨?_, ?_, ?_⟩
  · intro hno
    by_cases hd : isValidDomain domain = true
    · have hshape : (claimHostnameShape domain && decide (2 ≤ domain.length)) = true := by
        rw [← isValidDomain_eq]; exact hd
      simp only [Bool.and_eq_true, decide_eq_true_iff] at hshape
      have hs : validateSettings settings = false := by
        cases hvs : validateSettings settings
        · rfl
        · exact absurd ⟨hshape.1, hshape.2, hvs⟩ hno
      simp [saveDomainSettings, hd, hs]
    · have hdf : isValidDomain domain = false := Bool.eq_false_iff.mpr hd
      simp [saveDomainSettings, hdf]
  · intro h1 h2 h3
    have hd : isValidDomain domain = true := by
      rw [isValidDomain_eq, h1, decide_eq_true h2]
      rfl
    refine ⟨?_, ?_, ?_⟩
    · intro hset
      subst hset
      simp [saveDomainSettings, hd, h3]
    · intro hset hget
      subst hset
      subst hget
      simp [saveDomainSettings, hd, h3, getDomainSettings,
        storageGet_storageSet_self, areSettingsEqual_refl]
    · intro hset hget
      subst hset
      subst hget
      simp only [saveDomainSettings, hd, h3, getDomainSettings, Bool.not_true,
        Bool.not_false, Bool.false_eq_true, if_false, if_true, ite_true, ite_false]
      cases hae : areSettingsEqual settings DEFAULT_SETTINGS <;> simp [hae]
  · have hde : isValidDomain "" = false := by decide
    simp [saveDomainSettings, hde]

/-- C7 counterexample, refuting the claim's "if and only if" and its
"no partial write on failure" at three concrete inputs: (i) the
single-character domain `"a"` satisfies the hostname shape the claim
describes and the settings are valid, yet saving fails, because the regex
requires at least two characters; (ii) with the valid domain `"example.com"`
and valid settings, saving still fails when `chrome.storage.sync.set`
rejects (sync quota), although no validation failed; (iii) when the write is
accepted but the read-back errors, saving fails with storage CHANGED (the
written entry is retained). -/
theorem claim_c7_counterexample :
    (saveDomainSettings [] "a" ⟨[⟨"div#x", "div", []⟩], true⟩ true true).2 = false
    ∧ claimHostnameShape "a" = true
    ∧ validateSettings ⟨[⟨"div#x", "div", []⟩], true⟩ = true
    ∧ (saveDomainSettings [] "example.com" ⟨[⟨"div#x", "div", []⟩], true⟩ false true).2
        = false
    ∧ isValidDomain "example.com" = true
    ∧ (saveDomainSettings [] "example.com" ⟨[⟨"div#x", "div", []⟩], true⟩ true false).2
        = false
    ∧ (saveDomainSettings [] "example.com" ⟨[⟨"div#x", "div", []⟩], true⟩ true false).1
        ≠ ([] : Storage) := by
  decide

theorem claim_c7_witness :
    saveDomainSettings [] "example.com" ⟨[⟨"div#x", "div", []⟩], true⟩ true true
      = (storageSet [] "example.com" ⟨[⟨"div#x", "div", []⟩], true⟩, true)
    ∧ saveDomainSettings [] "" ⟨[], true⟩ true true = ([], false) :=
  ⟨((claim_c7_amended [] "example.com" ⟨[⟨"div#x", "div", []⟩], true⟩ true true).2.1
      (by decide) (by decide) (by decide)).2.1 rfl rfl,
   (claim_c7_amended [] "" ⟨[], true⟩ true true).2.2⟩

end StorageManager

namespace ElementFinder

theorem find?_filter {α : Type} (l : List α) (p q : α → Bool) :
    (l.filter p).find? q = l.find? (fun a => p a && q a) := by
  induction l with
  | nil => rfl
  | cons x t ih =>
    cases hp : p x <;> cases hq : q x <;>
      simp [List.filter_cons, List.find?_cons, hp, hq, ih]

theorem getNode_append (p : List Nat) (i : Nat) (e : Elem) :
    getNode (p ++ [i]) e = (getNode p e).bind (fun n => n.children[i]?) := by
  induction p generalizing e with
  | nil => cases h : e.children[i]? <;> simp [getNode, h]
  | cons j rest ih =>
    simp only [List.cons_append, getNode]
    cases h : e.children[j]? with
    | none => simp
    | some c => simp [ih c]

theorem getDomPathRevAux_length (root : Elem) :
    ∀ (rp : List Nat) (rfs : List Frag),
      getDomPathRevAux root rp = some rfs → rfs.length = rp.length := by
  intro rp
  induction rp with
  | nil =>
    intro rfs h
    simp only [getDomPathRevAux, Option.some.injEq] at h
    rw [← h]
    rfl
  | cons i rup ih =>
    intro rfs h
    simp only [getDomPathRevAux] at h
    cases hg : getNode rup.reverse root with
    | none =>
      simp only [hg] at h
      exact Option.noConfusion h
    | some parent =>
      simp only [hg] at h
      cases hf : fragFor parent i with
      | none =>
        simp only [hf] at h
        exact Option.noConfusion h
      | some f =>
        simp only [hf] at h
        cases ha : getDomPathRevAux root rup with
        | none =>
          simp only [ha] at h
          exact Option.noConfusion h
        | some rest =>
          simp only [ha, Option.some.injEq] at h
          rw [← h]
          simp [ih rest ha]

theorem matchesFrag_fragFor (root parent : Elem) (q : List Nat) (i : Nat) (f : Frag)
    (hq : getNode q root = some parent) (hf : fragFor parent i = some f) :
    matchesFrag root (q ++ [i]) f = true := by
  unfold fragFor at hf
  cases hc : parent.children[i]? with
  | none =>
    simp only [hc] at hf
    exact Option.noConfusion hf
  | some e =>
    simp only [hc] at hf
    have hn : getNode (q ++ [i]) root = some e := by
      rw [getNode_append, hq]
      simp [hc]
    cases hid : e.id with
    | some eid =>
      simp only [hid, Option.some.injEq] at hf
      rw [← hf]
      simp [matchesFrag, hn, hid]
    | none =>
      simp only [hid, Option.some.injEq] at hf
      rw [← hf]
      by_cases hlen : 1 < parent.children.length
      · simp [matchesFrag, hn, hlen, List.getLast?_concat]
      · simp [matchesFrag, hn, hlen]

end ElementFinder

namespace ElementFinder

theorem matchesPathRev_self (root : Elem) :
    ∀ (rp : List Nat) (rfs : List Frag),
      rp ≠ [] → getDomPathRevAux root rp = some rfs →
      matchesPathRev root rfs rp.reverse = true := by
  intro rp
  induction rp with
  | nil => intro rfs h; exact absurd rfl h
  | cons i rup ih =>
    intro rfs _ h
    simp only [getDomPathRevAux] at h
    cases hg : getNode rup.reverse root with
    | none =>
      simp only [hg] at h
      exact Option.noConfusion h
    | some parent =>
      simp only [hg] at h
      cases hf : fragFor parent i with
      | none =>
        simp only [hf] at h
        exact Option.noConfusion h
      | some f =>
        simp only [hf] at h
        cases ha : getDomPathRevAux root rup with
        | none =>
          simp only [ha] at h
          exact Option.noConfusion h
        | some rest =>
          simp only [ha, Option.some.injEq] at h
          rw [← h]
          have hm := matchesFrag_fragFor root parent rup.reverse i f hg hf
          have hrev : (i :: rup).reverse = rup.reverse ++ [i] := by
            simp [List.reverse_cons]
          rw [hrev]
          simp only [matchesPathRev, hm, Bool.true_and]
          rcases eq_or_ne rup [] with hrup | hne
          · subst hrup
            simp only [getDomPathRevAux, Option.some.injEq] at ha
            rw [← ha]
            rfl
          · have ih2 := ih rest hne ha
            have hrestne : rest.isEmpty = false := by
              have hlen := getDomPathRevAux_length root rup rest ha
              cases hr : rest with
              | nil =>
                rw [hr] at hlen
                simp only [List.length_nil] at hlen
                exact absurd (List.length_eq_zero.mp hlen.symm) hne
              | cons _ _ => rfl
            have hpne : (rup.reverse ++ [i]).isEmpty = false := by simp
            have hdrop : (rup.reverse ++ [i]).dropLast = rup.reverse :=
              List.dropLast_concat
            simp [hrestne, hpne, hdrop, ih2]

theorem mem_preorderChildren (base : List Nat) :
    ∀ (cs : List Elem) (k i : Nat) (c : Elem) (x : List Nat),
      cs[i]? = some c → x ∈ preorder (base ++ [k + i]) c →
      x ∈ preorderChildren base k cs := by
  intro cs
  induction cs with
  | nil =>
    intro k i c x h
    simp at h
  | cons c0 cs' ih =>
    intro k i c x hget hx
    cases i with
    | zero =>
      simp only [List.getElem?_cons_zero, Option.some.injEq] at hget
      rw [← hget] at hx
      simp only [preorderChildren]
      exact List.mem_append_left _ (by simpa using hx)
    | succ i' =>
      simp only [List.getElem?_cons_succ] at hget
      simp only [preorderChildren]
      refine List.mem_append_right _ ?_
      refine ih (k + 1) i' c x hget ?_
      have harith : k + 1 + i' = k + (i' + 1) := by omega
      rw [harith]
      exact hx

theorem getNode_mem_preorder :
    ∀ (p : List Nat) (e : Elem) (base : List Nat) (n : Elem),
      getNode p e = some n → (base ++ p) ∈ preorder base e := by
  intro p
  induction p with
  | nil =>
    intro e base n _
    cases e with
    | mk t id0 cls tx ch =>
      simp [preorder]
  | cons i rest ih =>
    intro e base n h
    simp only [getNode] at h
    cases hc : e.children[i]? with
    | none =>
      simp only [hc] at h
      exact Option.noConfusion h
    | some c =>
      simp only [hc] at h
      cases e with
      | mk t id0 cls tx ch =>
        simp only [preorder]
        refine List.mem_cons.mpr (Or.inr ?_)
        have hx : base ++ i :: rest = (base ++ [i]) ++ rest := by simp
        rw [hx]
        refine mem_preorderChildren base ch 0 i c _ ?_ ?_
        · simpa [Elem.children] using hc
        · have := ih c (base ++ [i]) n h
          simpa using this

theorem find?_eq_of_unique {α : Type} (l : List α) (pred : α → Bool) (a : α)
    (hmem : a ∈ l) (ha : pred a = true)
    (huniq : ∀ b ∈ l, pred b = true → b = a) :
    l.find? pred = some a := by
  have hsome : (l.find? pred).isSome := List.find?_isSome.mpr ⟨a, hmem, ha⟩
  cases hf : l.find? pred with
  | none => rw [hf] at hsome; simp at hsome
  | some b =>
    have hb1 := List.find?_some hf
    have hb2 := List.mem_of_find?_eq_some hf
    rw [huniq b hb2 hb1]

theorem identifierBase_eq (root : Elem) (p : List Nat)
    (ch : Option (List ElementIdentifier)) (idr : ElementIdentifier)
    (h : identifierBase root p ch = some idr) :
    ∃ e frags, getNode p root = some e ∧ getDomPath root p = some frags
      ∧ idr.domPath = .valid frags ∧ idr.children = ch := by
  unfold identifierBase at h
  cases hn : getNode p root with
  | none =>
    simp only [hn] at h
    exact Option.noConfusion h
  | some e =>
    simp only [hn] at h
    cases hp : getDomPath root p with
    | none =>
      simp only [hp] at h
      exact Option.noConfusion h
    | some frags =>
      simp only [hp, Option.some.injEq] at h
      refine ⟨e, frags, rfl, rfl, ?_, ?_⟩
      · rw [← h]
        rfl
      · rw [← h]
        rfl

theorem getElementIdentifier_eq (root : Elem) (p : List Nat) (incl : Bool)
    (idr : ElementIdentifier) (h : getElementIdentifier root p incl = some idr) :
    ∃ ch, identifierBase root p ch = some idr := by
  cases incl with
  | false => exact ⟨none, h⟩
  | true =>
    simp only [getElementIdentifier, if_pos] at h
    cases hn : getNode p root with
    | none =>
      simp only [hn] at h
      exact Option.noConfusion h
    | some e =>
      simp only [hn] at h
      cases hm : mapMOption (fun i => getElementIdentifierNoChildren root (p ++ [i]))
          (List.range e.children.length) with
      | none =>
        simp only [hm] at h
        exact Option.noConfusion h
      | some children =>
        simp only [hm] at h
        exact ⟨_, h⟩

theorem getDomPath_length (root : Elem) (p : List Nat) (frags : List Frag)
    (h : getDomPath root p = some frags) : frags.length = p.length := by
  unfold getDomPath at h
  cases ha : getDomPathRevAux root p.reverse with
  | none =>
    rw [ha] at h
    exact Option.noConfusion h
  | some rfs =>
    rw [ha] at h
    simp only [Option.map_some', Option.some.injEq] at h
    rw [← h]
    have := getDomPathRevAux_length root p.reverse rfs ha
    simp [this]

end ElementFinder

namespace ElementFinder

/-- C1 (amended): `resolve(identify(N))` returns N when the DOM is unchanged
AND N's structural path matches no element other than N itself (the path
"uniquely resolves").  Without the uniqueness proviso the round trip can
return a different, earlier element (see the counterexample). -/
theorem claim_c1_amended (root : Elem) (p : List Nat) (frags : List Frag)
    (idr : ElementIdentifier) (incl : Bool)
    (hp : p ≠ [])
    (hidr : getElementIdentifier root p incl = some idr)
    (hpath : getDomPath root p = some frags)
    (huniq : ∀ q ∈ preorder [] root, matchesPath root frags q = true → q = p) :
    findElementByIdentifier root idr = some p := by
  have hlen := getDomPath_length root p frags hpath
  obtain ⟨ch, hbase⟩ := getElementIdentifier_eq root p incl idr hidr
  obtain ⟨e, frags2, hn, hp2, hdom, _⟩ := identifierBase_eq root p ch idr hbase
  rw [hpath] at hp2
  injection hp2 with hp2
  subst hp2
  have hrevne : p.reverse ≠ [] := by simpa using hp
  have hmatch : matchesPath root frags p = true := by
    unfold getDomPath at hpath
    cases ha : getDomPathRevAux root p.reverse with
    | none =>
      rw [ha] at hpath
      exact Option.noConfusion hpath
    | some rfs =>
      rw [ha] at hpath
      simp only [Option.map_some', Option.some.injEq] at hpath
      have hself := matchesPathRev_self root p.reverse rfs hrevne ha
      rw [List.reverse_reverse] at hself
      have hne2 : frags.isEmpty = false := by
        cases hfr : frags with
        | nil =>
          rw [hfr] at hlen
          simp only [List.length_nil] at hlen
          exact absurd (List.length_eq_zero.mp hlen.symm) hp
        | cons _ _ => rfl
      unfold matchesPath
      rw [hne2, ← hpath, List.reverse_reverse]
      simpa using hself
  have hmem : p ∈ preorder [] root := by
    have := getNode_mem_preorder p root [] e hn
    simpa using this
  have hfind : (preorder [] root).find? (matchesPath root frags) = some p :=
    find?_eq_of_unique _ _ p hmem hmatch huniq
  unfold findElementByIdentifier
  rw [hdom]
  cases hfr : frags with
  | nil =>
    rw [hfr] at hlen
    simp only [List.length_nil] at hlen
    exact absurd (List.length_eq_zero.mp hlen.symm) hp
  | cons f fs =>
    rw [hfr] at hfind
    simp only [querySelector, querySelectorFrags]
    rw [hfind]

/-- C1 counterexample: in `roundTripDoc` (unchanged between capture and
resolution), the node at position `[0, 1]` exists, yet resolving the record
captured for it returns the different node at `[0, 0, 1]`, because that
earlier node also matches the captured structural path
`div > div:nth-child(2)`. -/
theorem claim_c1_counterexample :
    (getElementIdentifier roundTripDoc [0, 1] true).bind
        (findElementByIdentifier roundTripDoc) = some [0, 0, 1]
    ∧ (getNode [0, 1] roundTripDoc).isSome = true
    ∧ [0, 0, 1] ≠ ([0, 1] : List Nat) := by
  decide

theorem claim_c1_witness :
    findElementByIdentifier uniqueDoc
        (.mk (.valid [⟨"div", some "main", none⟩]) "div" [] (some "main")
          none (some (.valid [])) none) = some [0] :=
  claim_c1_amended uniqueDoc [0] [⟨"div", some "main", none⟩] _ true
    (by decide) (by with_unfolding_all rfl) rfl (by decide)

/-- C2: when the structural-path query does not produce an element (no match,
or an unparseable selector that would throw — the exception is caught),
resolution equals the first-qualifying-element scan the specification
describes, and it returns null exactly when no element qualifies.  Resolution
is a total function of the model: it never throws. -/
theorem claim_c2 (root : Elem) (idr : ElementIdentifier)
    (h : qsFoundSome (querySelector root idr.domPath) = false) :
    findElementByIdentifier root idr = claimFallbackResult root idr
    ∧ (findElementByIdentifier root idr = none ↔
        ∀ q ∈ preorder [] root, qualifies root idr q = false) := by
  have hfb : ((preorder [] root).filter (hasTag root idr.tagName)).find?
      (fun p => match getNode p root with
        | some e => fallbackMatches idr e
        | none => false) = claimFallbackResult root idr := by
    rw [find?_filter]
    unfold claimFallbackResult
    congr 1
    funext q
    cases hq : getNode q root <;>
      simp [hasTag, fallbackMatches, qualifies, hq, Bool.and_assoc]
  have heq : findElementByIdentifier root idr = claimFallbackResult root idr := by
    unfold findElementByIdentifier
    cases hq : querySelector root idr.domPath with
    | error u => exact hfb
    | ok o =>
      cases o with
      | some q =>
        rw [hq] at h
        exact absurd h (by simp [qsFoundSome])
      | none => exact hfb
  refine ⟨heq, ?_⟩
  rw [heq]
  unfold claimFallbackResult
  constructor
  · intro hnone q hqmem
    exact Bool.eq_false_iff.mpr (List.find?_eq_none.mp hnone q hqmem)
  · intro hall
    apply List.find?_eq_none.mpr
    intro a ha
    rw [hall a ha]
    simp

theorem claim_c2_witness :
    findElementByIdentifier fallbackDoc fallbackIdr
        = claimFallbackResult fallbackDoc fallbackIdr
    ∧ (findElementByIdentifier fallbackDoc fallbackIdr = none ↔
        ∀ q ∈ preorder [] fallbackDoc, qualifies fallbackDoc fallbackIdr q = false) :=
  claim_c2 fallbackDoc fallbackIdr rfl

theorem mapMOption_mem {α β : Type} (f : α → Option β) :
    ∀ (l : List α) (bs : List β), mapMOption f l = some bs →
      ∀ b ∈ bs, ∃ a ∈ l, f a = some b := by
  intro l
  induction l with
  | nil =>
    intro bs h b hb
    simp only [mapMOption, Option.some.injEq] at h
    rw [← h] at hb
    simp at hb
  | cons a t ih =>
    intro bs h b hb
    simp only [mapMOption] at h
    cases hfa : f a with
    | none =>
      simp only [hfa] at h
      exact Option.noConfusion h
    | some b0 =>
      simp only [hfa] at h
      cases hmt : mapMOption f t with
      | none =>
        simp only [hmt] at h
        exact Option.noConfusion h
      | some bs0 =>
        simp only [hmt, Option.some.injEq] at h
        rw [← h] at hb
        rcases List.mem_cons.mp hb with hb1 | hb2
        · exact ⟨a, List.mem_cons_self _ _, by rw [hfa, hb1]⟩
        · obtain ⟨a2, ha2, hfa2⟩ := ih bs0 hmt b hb2
          exact ⟨a2, List.mem_cons_of_mem _ ha2, hfa2⟩

theorem mapMOption_length {α β : Type} (f : α → Option β) :
    ∀ (l : List α) (bs : List β), mapMOption f l = some bs →
      bs.length = l.length := by
  intro l
  induction l with
  | nil =>
    intro bs h
    simp only [mapMOption, Option.some.injEq] at h
    rw [← h]
    rfl
  | cons a t ih =>
    intro bs h
    simp only [mapMOption] at h
    cases hfa : f a with
    | none =>
      simp only [hfa] at h
      exact Option.noConfusion h
    | some b0 =>
      simp only [hfa] at h
      cases hmt : mapMOption f t with
      | none =>
        simp only [hmt] at h
        exact Option.noConfusion h
      | some bs0 =>
        simp only [hmt, Option.some.injEq] at h
        rw [← h]
        simp [ih bs0 hmt]

theorem getElementIdentifierNoChildren_children (root : Elem) (q : List Nat)
    (c : ElementIdentifier) (h : getElementIdentifierNoChildren root q = some c) :
    c.children = none := by
  obtain ⟨e, frags, _, _, _, hch⟩ := identifierBase_eq root q none c h
  exact hch

/-- C9: capture with `includeChildren = true` goes exactly one level deep: a
`children` field, when present, is a nonempty list of records none of which
carries a `children` field of its own, and the field is absent exactly when
the node has no child elements. -/
theorem claim_c9 (root : Elem) (p : List Nat) (idr : ElementIdentifier)
    (h : getElementIdentifier root p true = some idr) :
    (∀ cs, idr.children = some cs → cs ≠ [] ∧ ∀ c ∈ cs, c.children = none)
    ∧ (∀ e, getNode p root = some e → (idr.children = none ↔ e.children = [])) := by
  simp only [getElementIdentifier, if_pos] at h
  cases hn : getNode p root with
  | none =>
    simp only [hn] at h
    exact Option.noConfusion h
  | some e =>
    simp only [hn] at h
    cases hm : mapMOption (fun i => getElementIdentifierNoChildren root (p ++ [i]))
        (List.range e.children.length) with
    | none =>
      simp only [hm] at h
      exact Option.noConfusion h
    | some children =>
      simp only [hm] at h
      obtain ⟨e2, frags, _, _, _, hch⟩ := identifierBase_eq root p _ idr h
      have hlen : children.length = e.children.length := by
        have := mapMOption_length _ _ _ hm
        simpa using this
      constructor
      · intro cs hcs
        rw [hch] at hcs
        by_cases hemp : children.isEmpty
        · rw [if_pos hemp] at hcs
          exact Option.noConfusion hcs
        · rw [if_neg hemp] at hcs
          injection hcs with hcs
          rw [← hcs]
          refine ⟨by simpa [List.isEmpty_iff] using hemp, ?_⟩
          intro c hc
          obtain ⟨i, _, hfi⟩ := mapMOption_mem _ _ _ hm c hc
          exact getElementIdentifierNoChildren_children root (p ++ [i]) c hfi
      · intro e3 hn3
        injection hn3 with hn3
        subst hn3
        rw [hch]
        by_cases hemp : children.isEmpty
        · rw [if_pos hemp]
          have h0 : e.children.length = 0 := by
            rw [← hlen]
            simpa [List.isEmpty_iff_length_eq_zero] using hemp
          simp [List.length_eq_zero.mp h0]
        · rw [if_neg hemp]
          have hne : e.children ≠ [] := by
            intro hnil
            apply hemp
            rw [List.isEmpty_iff, ← List.length_eq_zero, hlen, hnil]
            rfl
          simp [hne]

theorem claim_c9_witness :
    (ElementIdentifier.mk
        (.valid [⟨"div", none, none⟩, ⟨"span", none, none⟩]) "span" ["x"] none none
        (some (.valid [⟨"div", none, none⟩])) none).children = none :=
  ((claim_c9 childrenDoc [0]
      (.mk (.valid [⟨"div", none, none⟩]) "div" [] none none (some (.valid []))
        (some [.mk (.valid [⟨"div", none, none⟩, ⟨"span", none, none⟩]) "span" ["x"]
          none none (some (.valid [⟨"div", none, none⟩])) none]))
      (by with_unfolding_all rfl)).1
    [.mk (.valid [⟨"div", none, none⟩, ⟨"span", none, none⟩]) "span" ["x"] none none
      (some (.valid [⟨"div", none, none⟩])) none]
    rfl).2
    (.mk (.valid [⟨"div", none, none⟩, ⟨"span", none, none⟩]) "span" ["x"] none none
      (some (.valid [⟨"div", none, none⟩])) none)
    (List.mem_singleton_self _)

end ElementFinder
